import Mathlib

/-!
Verification of the columnar aggregate codec and the time-scoped query
engine of the offen event store.

The codec (`aggregate`, `mergeAggregates`, `inflateAggregate`,
`removeFromAggregate`) is modelled from the specification, since only its
test suite (src/vault/src/event-store.test.js) ships with the sources; the
model is checked below against every concrete expectation of that test
suite.  The query engine (src/vault/src/queries.js) is embedded from the
source.
-/

/-- A row: a schemaless record, modelled as an association list from field
name to value.  `α` is the dynamic value type; a stored JS `null` is just a
value of `α`, distinct from a missing field. -/
abbrev Row (α : Type) := List (String × α)

/-- A column: one entry per row, `none` being the absent marker for a row
that lacks the field. -/
abbrev Column (α : Type) := List (Option α)

/-- An aggregate: ordered association list from field name to column. -/
abbrev Aggregate (α : Type) := List (String × Column α)

deriving instance DecidableEq for Except

/-- JS object property access, modelled on association lists (first match
wins, `none` when the property is missing). -/
def alookup {β : Type} (k : String) : List (String × β) → Option β
  | [] => none
  | p :: rest => if k = p.1 then some p.2 else alookup k rest

/-- Remove duplicates keeping the first occurrence of each element,
mirroring the first-seen key order of JS object construction. -/
def firstDedupAux {β : Type} [DecidableEq β] (seen : List β) : List β → List β
  | [] => []
  | x :: xs =>
    if x ∈ seen then firstDedupAux seen xs else x :: firstDedupAux (x :: seen) xs

/-- First-occurrence deduplication. -/
def firstDedup {β : Type} [DecidableEq β] (l : List β) : List β :=
  firstDedupAux [] l

variable {α : Type} [DecidableEq α]

/-- Modelled from the spec: the union of keys across all rows, in
first-seen order (event-store `aggregate`, key-union step). -/
def unionKeys (rows : List (Row α)) : List String :=
  firstDedup ((rows.map (fun r => r.map Prod.fst)).flatten)

/-- Modelled from the spec: event-store `aggregate(rows)` builds one column
per key of the union, each of length the number of rows, filling the
absent marker wherever a row lacks that key; rows are processed in input
order. -/
def aggregate (rows : List (Row α)) : Aggregate α :=
  (unionKeys rows).map (fun k => (k, rows.map (fun r => alookup k r)))

/-- The keys of an aggregate. -/
def aggKeys (a : Aggregate α) : List String := a.map Prod.fst

/-- The row count of an aggregate: the length of its first column (zero
for an empty aggregate). -/
def aggLen (a : Aggregate α) : Nat :=
  match a with
  | [] => 0
  | p :: _ => p.2.length

/-- Invariant A of the spec: every column of the aggregate has the same
length. -/
def Aligned (a : Aggregate α) : Prop := ∀ p ∈ a, p.2.length = aggLen a

instance decidableAligned (a : Aggregate α) : Decidable (Aligned a) :=
  inferInstanceAs (Decidable (∀ p ∈ a, p.2.length = aggLen a))

/-- The contribution of one input aggregate to the merged column of key
`k`: its own column when it has the key, otherwise a full-length run of
absent markers. -/
def mergePiece (k : String) (a : Aggregate α) : Column α :=
  match alookup k a with
  | some col => col
  | none => List.replicate (aggLen a) none

/-- Modelled from the spec: event-store `mergeAggregates(aggregates)`
concatenates the row sets in input order; the result key set is the union
of the inputs' key sets, and an input lacking a key contributes a
full-length run of absent markers at the position of its rows. -/
def mergeAggregates (aggs : List (Aggregate α)) : Aggregate α :=
  (firstDedup ((aggs.map aggKeys).flatten)).map
    (fun k => (k, aggs.foldl (fun acc a => acc ++ mergePiece k a) []))

/-- The row reconstructed from position `i` of every column (keys whose
column holds the absent marker at `i` are omitted). -/
def rowAt (agg : Aggregate α) (i : Nat) : Row α :=
  agg.filterMap (fun p => (p.2.getD i none).map (fun v => (p.1, v)))

/-- Modelled from the spec: event-store `inflateAggregate(aggregate)`
rebuilds the row at each position `i` from every column, and fails with an
AsymmetryError when the column lengths disagree. -/
def inflateAggregate (agg : Aggregate α) : Except String (List (Row α)) :=
  if agg.all (fun p => decide (p.2.length = aggLen agg))
  then Except.ok ((List.range (aggLen agg)).map (fun i => rowAt agg i))
  else Except.error "AsymmetryError"

/-- Whether a column entry is one of the values to remove (the absent
marker is never a member of a list of values). -/
def entryMatches (values : List α) : Option α → Bool
  | some v => decide (v ∈ values)
  | none => false

/-- The per-position keep predicate of a removal: position `i` survives
when the scanned column's entry there is not one of the removed values. -/
def keepPred (values : List α) (col : Column α) : Nat → Bool :=
  fun i => !(entryMatches values (col.getD i none))

/-- The positions of the scanned column that survive a removal. -/
def survivors (values : List α) (col : Column α) : List Nat :=
  (List.range col.length).filter (keepPred values col)

/-- Modelled from the spec: event-store `removeFromAggregate(aggregate,
keyRef, values)` scans the column named `keyRef`, collects the positions
whose value is a member of `values`, and removes those positions from
every column, preserving the relative order of the remaining positions; a
missing `keyRef` is a usage error. -/
def removeFromAggregate (agg : Aggregate α) (keyRef : String) (values : List α) :
    Except String (Aggregate α) :=
  match alookup keyRef agg with
  | none => Except.error "UsageError"
  | some col =>
    Except.ok (agg.map (fun p =>
      (p.1, ((List.range p.2.length).filter (keepPred values col)).filterMap
        (fun i => p.2.get? i))))

-- Model validation against src/vault/src/event-store.test.js.

example :
    aggregate ([[("type", "foo"), ("value", "12")], [("type", "bar"), ("value", "44")]] :
      List (Row String)) =
    [("type", [some "foo", some "bar"]), ("value", [some "12", some "44"])] := by decide

example :
    aggregate ([[("solo", "99")],
                [("type", "bar"), ("value", "12"), ("other", "ok")],
                [("type", "baz"), ("value", "14"), ("extra", "true")]] :
      List (Row String)) =
    [("solo", [some "99", none, none]),
     ("type", [none, some "bar", some "baz"]),
     ("value", [none, some "12", some "14"]),
     ("other", [none, some "ok", none]),
     ("extra", [none, none, some "true"])] := by decide

example :
    mergeAggregates ([[("type", [some "a", some "b"])],
                      [("type", [some "x", some "y", some "z"]),
                       ("value", [some "1", some "2", some "3"])]] :
      List (Aggregate String)) =
    [("type", [some "a", some "b", some "x", some "y", some "z"]),
     ("value", [none, none, some "1", some "2", some "3"])] := by decide

example :
    mergeAggregates ([[("type", [some "a", some "b"]), ("value", [some "1", some "2"])],
                      [("type", [some "x", some "y", some "z"])],
                      [("other", [some "ok"])]] :
      List (Aggregate String)) =
    [("type", [some "a", some "b", some "x", some "y", some "z", none]),
     ("value", [some "1", some "2", none, none, none, none]),
     ("other", [none, none, none, none, none, some "ok"])] := by decide

example :
    inflateAggregate ([("type", [some "thing", some "widget", some "roomba"]),
                       ("value", [some "0", none, some "foo"])] : Aggregate String) =
    Except.ok [[("type", "thing"), ("value", "0")],
               [("type", "widget")],
               [("type", "roomba"), ("value", "foo")]] := by decide

example :
    inflateAggregate ([("type", [some "thing", some "widget", some "roomba"]),
                       ("value", [some "0", none, some "foo", some "whoops"])] :
      Aggregate String) =
    Except.error "AsymmetryError" := by decide

example :
    removeFromAggregate
      ([("type", [some "a", some "b", some "x", some "y", some "z"]),
        ("value", [some "t", some "f", some "1", some "2", some "3"])] : Aggregate String)
      "type" ["x", "z"] =
    Except.ok [("type", [some "a", some "b", some "y"]),
               ("value", [some "t", some "f", some "2"])] := by decide

-- Helper lemmas about the association-list and dedup primitives.

theorem mem_firstDedupAux {β : Type} [DecidableEq β] (a : β) (l : List β) :
    ∀ seen, a ∈ firstDedupAux seen l ↔ (a ∈ l ∧ a ∉ seen) := by
  induction l with
  | nil => intro seen; simp [firstDedupAux]
  | cons x xs ih =>
    intro seen
    by_cases hx : x ∈ seen
    · rw [firstDedupAux, if_pos hx, ih seen]
      constructor
      · rintro ⟨h1, h2⟩
        exact ⟨List.mem_cons_of_mem _ h1, h2⟩
      · rintro ⟨h1, h2⟩
        rcases List.mem_cons.mp h1 with rfl | h1
        · exact absurd hx h2
        · exact ⟨h1, h2⟩
    · rw [firstDedupAux, if_neg hx]
      rw [List.mem_cons, ih (x :: seen)]
      constructor
      · rintro (rfl | ⟨h1, h2⟩)
        · exact ⟨List.mem_cons_self _ _, hx⟩
        · refine ⟨List.mem_cons_of_mem _ h1, fun hc => h2 (List.mem_cons_of_mem _ hc)⟩
      · rintro ⟨h1, h2⟩
        by_cases hax : a = x
        · exact Or.inl hax
        · refine Or.inr ⟨?_, ?_⟩
          · rcases List.mem_cons.mp h1 with h | h
            · exact absurd h hax
            · exact h
          · intro hc
            rcases List.mem_cons.mp hc with h | h
            · exact hax h
            · exact h2 h

theorem mem_firstDedup {β : Type} [DecidableEq β] (a : β) (l : List β) :
    a ∈ firstDedup l ↔ a ∈ l := by
  rw [firstDedup, mem_firstDedupAux]
  simp

theorem nodup_firstDedupAux {β : Type} [DecidableEq β] (l : List β) :
    ∀ seen, (firstDedupAux seen l).Nodup := by
  induction l with
  | nil => intro seen; simp [firstDedupAux]
  | cons x xs ih =>
    intro seen
    by_cases hx : x ∈ seen
    · rw [firstDedupAux, if_pos hx]; exact ih seen
    · rw [firstDedupAux, if_neg hx]
      refine List.Nodup.cons ?_ (ih (x :: seen))
      intro hc
      rcases (mem_firstDedupAux x xs (x :: seen)).mp hc with ⟨_, h2⟩
      exact h2 (List.mem_cons_self _ _)

theorem nodup_firstDedup {β : Type} [DecidableEq β] (l : List β) :
    (firstDedup l).Nodup :=
  nodup_firstDedupAux l []

theorem alookup_map_mk {β : Type} (f : String → β) (keys : List String) (k : String) :
    alookup k (keys.map (fun x => (x, f x))) = if k ∈ keys then some (f k) else none := by
  induction keys with
  | nil => simp [alookup]
  | cons x xs ih =>
    simp only [List.map_cons, alookup]
    by_cases hk : k = x
    · subst hk; simp
    · rw [if_neg hk, ih]
      simp [List.mem_cons, hk]

theorem alookup_map_val {β γ : Type} (h : β → γ) (l : List (String × β)) (k : String) :
    alookup k (l.map (fun p => (p.1, h p.2))) = (alookup k l).map h := by
  induction l with
  | nil => simp [alookup]
  | cons p rest ih =>
    simp only [List.map_cons, alookup]
    by_cases hk : k = p.1
    · simp [hk]
    · simp [hk, ih]

theorem alookup_mem {β : Type} {l : List (String × β)} {k : String} {v : β}
    (h : alookup k l = some v) : (k, v) ∈ l := by
  induction l with
  | nil => simp [alookup] at h
  | cons p rest ih =>
    obtain ⟨a, b⟩ := p
    rw [alookup] at h
    by_cases hk : k = a
    · rw [if_pos hk] at h
      injection h with h2
      exact List.mem_cons.mpr (Or.inl (by rw [hk, ← h2]))
    · rw [if_neg hk] at h
      exact List.mem_cons_of_mem _ (ih h)

theorem alookup_eq_none {β : Type} (l : List (String × β)) (k : String) :
    alookup k l = none ↔ k ∉ l.map Prod.fst := by
  induction l with
  | nil => simp [alookup]
  | cons p rest ih =>
    rw [alookup]
    by_cases hk : k = p.1
    · simp [hk]
    · simp [hk, ih]

theorem foldl_append_eq_flatten {β γ : Type} (f : β → List γ) (l : List β) :
    ∀ init : List γ, l.foldl (fun acc x => acc ++ f x) init = init ++ (l.map f).flatten := by
  induction l with
  | nil => intro init; simp
  | cons x xs ih =>
    intro init
    simp only [List.foldl_cons, List.map_cons, List.flatten_cons, ih, List.append_assoc]

theorem alookup_filterMap_mk {β : Type} (g : String → Option β) :
    ∀ keys : List String, keys.Nodup → ∀ k,
      alookup k (keys.filterMap (fun x => (g x).map (fun v => (x, v)))) =
        if k ∈ keys then g k else none := by
  intro keys
  induction keys with
  | nil => intro _ k; simp [alookup]
  | cons x xs ih =>
    intro hnd k
    obtain ⟨hx, hxs⟩ := List.nodup_cons.mp hnd
    cases hg : g x with
    | none =>
      rw [List.filterMap_cons_none (by simp [hg]), ih hxs k]
      by_cases hk : k = x
      · subst hk
        simp [hx, hg]
      · simp [List.mem_cons, hk]
    | some v =>
      have hstep :
          List.filterMap (fun x => (g x).map (fun v => (x, v))) (x :: xs) =
            (x, v) :: List.filterMap (fun x => (g x).map (fun v => (x, v))) xs :=
        List.filterMap_cons_some (by simp [hg])
      rw [hstep, alookup]
      by_cases hk : k = x
      · subst hk; simp [hg]
      · rw [if_neg hk, ih hxs k]
        simp [List.mem_cons, hk]

theorem getElem?_flatten_piece {γ : Type} :
    ∀ (L : List (List γ)) (j p : Nat) (hj : j < L.length), p < L[j].length →
      L.flatten[(((L.take j).map List.length).sum) + p]? = L[j][p]? := by
  intro L j
  induction j generalizing L with
  | zero =>
    intro p hj hp
    cases L with
    | nil => simp at hj
    | cons c rest =>
      simp only [List.take_zero, List.map_nil, List.sum_nil, Nat.zero_add, List.flatten_cons,
        List.getElem_cons_zero] at hp ⊢
      rw [List.getElem?_append, if_pos hp]
  | succ j ih =>
    intro p hj hp
    cases L with
    | nil => simp at hj
    | cons c rest =>
      simp only [List.take_succ_cons, List.map_cons, List.sum_cons, List.flatten_cons,
        List.getElem_cons_succ] at hp ⊢
      rw [Nat.add_assoc, List.getElem?_append_right (Nat.le_add_right _ _),
        Nat.add_sub_cancel_left]
      exact ih rest p (by simpa using hj) hp

theorem length_filterMap_getElem? {γ : Type} (cs : List γ) :
    ∀ idxs : List Nat, (∀ i ∈ idxs, i < cs.length) →
      (idxs.filterMap (fun i => cs[i]?)).length = idxs.length := by
  intro idxs
  induction idxs with
  | nil => intro _; simp
  | cons i is ih =>
    intro h
    have hi : i < cs.length := h i (List.mem_cons_self _ _)
    have hstep : List.filterMap (fun i => cs[i]?) (i :: is) =
        cs[i] :: List.filterMap (fun i => cs[i]?) is :=
      List.filterMap_cons_some (List.getElem?_eq_getElem hi)
    rw [hstep, List.length_cons,
      ih (fun j hj => h j (List.mem_cons_of_mem _ hj)), List.length_cons]

-- Structure of the merged aggregate.

theorem mergeAggregates_eq (aggs : List (Aggregate α)) :
    mergeAggregates aggs =
      (firstDedup ((aggs.map aggKeys).flatten)).map
        (fun k => (k, (aggs.map (mergePiece k)).flatten)) := by
  unfold mergeAggregates
  refine List.map_congr_left (fun k _ => ?_)
  rw [foldl_append_eq_flatten]
  simp

theorem length_mergePiece (k : String) (a : Aggregate α) (ha : Aligned a) :
    (mergePiece k a).length = aggLen a := by
  unfold mergePiece
  cases h : alookup k a with
  | none => simp
  | some col => exact ha _ (alookup_mem h)

theorem alookup_mergeAggregates (aggs : List (Aggregate α)) (k : String) :
    alookup k (mergeAggregates aggs) =
      if k ∈ firstDedup ((aggs.map aggKeys).flatten)
      then some ((aggs.map (mergePiece k)).flatten) else none := by
  rw [mergeAggregates_eq]
  exact alookup_map_mk (fun k => (aggs.map (mergePiece k)).flatten) _ k

theorem aggKeys_mergeAggregates (aggs : List (Aggregate α)) :
    aggKeys (mergeAggregates aggs) = firstDedup ((aggs.map aggKeys).flatten) := by
  rw [mergeAggregates_eq]
  unfold aggKeys
  rw [List.map_map]
  have h : (Prod.fst ∘ fun k => (k, (aggs.map (mergePiece k)).flatten)) = id := rfl
  rw [h, List.map_id]

theorem merged_col_length (aggs : List (Aggregate α)) (hal : ∀ a ∈ aggs, Aligned a)
    (k : String) : ((aggs.map (mergePiece k)).flatten).length = (aggs.map aggLen).sum := by
  rw [List.length_flatten, List.map_map]
  exact congrArg List.sum (List.map_congr_left (fun a ha' => length_mergePiece k a (hal a ha')))

/-- C1: for an ordered sequence of aligned Aggregates, `mergeAggregates`
returns an Aggregate whose key set is the union of the inputs' key sets,
in which every column's total length is the sum of the input row counts,
and in which an input lacking a key contributes absent markers at exactly
its own row positions (head padding for keys introduced later, tail
padding for keys it never had). -/
theorem C1_mergeLength (aggs : List (Aggregate α)) (hal : ∀ a ∈ aggs, Aligned a) :
    (∀ k, k ∈ aggKeys (mergeAggregates aggs) ↔ ∃ a ∈ aggs, k ∈ aggKeys a) ∧
    (∀ k col, alookup k (mergeAggregates aggs) = some col →
      col.length = (aggs.map aggLen).sum ∧
      ∀ j (hj : j < aggs.length), k ∉ aggKeys aggs[j] →
        ∀ p, p < aggLen aggs[j] →
          col[((aggs.take j).map aggLen).sum + p]? = some none) := by
  constructor
  · intro k
    rw [aggKeys_mergeAggregates, mem_firstDedup, List.mem_flatten]
    constructor
    · rintro ⟨l, hl, hkl⟩
      obtain ⟨a, ha', rfl⟩ := List.mem_map.mp hl
      exact ⟨a, ha', hkl⟩
    · rintro ⟨a, ha', hk⟩
      exact ⟨aggKeys a, List.mem_map_of_mem _ ha', hk⟩
  · intro k col hcol
    rw [alookup_mergeAggregates] at hcol
    by_cases hk : k ∈ firstDedup ((aggs.map aggKeys).flatten)
    case neg => rw [if_neg hk] at hcol; exact absurd hcol (by simp)
    rw [if_pos hk] at hcol
    injection hcol with hcol
    subst hcol
    constructor
    · exact merged_col_length aggs hal k
    · intro j hj hknot p hp
      have hjL : j < (aggs.map (mergePiece k)).length := by simpa using hj
      have hLj : (aggs.map (mergePiece k))[j] = mergePiece k aggs[j] := List.getElem_map _
      have hpiece : mergePiece k aggs[j] = List.replicate (aggLen aggs[j]) none := by
        unfold mergePiece
        rw [(alookup_eq_none _ _).mpr hknot]
      have hofst : ((aggs.take j).map aggLen).sum =
          (((aggs.map (mergePiece k)).take j).map List.length).sum := by
        rw [← List.map_take, List.map_map]
        exact congrArg List.sum (List.map_congr_left (fun a ha' =>
          (length_mergePiece k a (hal a (List.Sublist.mem ha' (List.take_sublist j aggs)))).symm))
      rw [hofst, getElem?_flatten_piece (aggs.map (mergePiece k)) j p hjL
        (by rw [hLj, hpiece]; simpa using hp)]
      rw [hLj, hpiece, List.getElem?_replicate, if_pos hp]

def W1 : List (Aggregate String) :=
  [[("type", [some "a", some "b"])],
   [("type", [some "x", some "y", some "z"]), ("value", [some "1", some "2", some "3"])]]

theorem C1_witness :
    (∀ a ∈ W1, Aligned a) ∧
    ("value" ∈ aggKeys (mergeAggregates W1) ↔ ∃ a ∈ W1, "value" ∈ aggKeys a) ∧
    alookup "value" (mergeAggregates W1) =
      some [none, none, some "1", some "2", some "3"] ∧
    ([none, none, some "1", some "2", some "3"] : Column String).length = (W1.map aggLen).sum :=
  ⟨by decide, (C1_mergeLength W1 (by decide)).1 "value", by decide,
   ((C1_mergeLength W1 (by decide)).2 "value" _ (by decide)).1⟩

theorem aligned_aggregate (rows : List (Row α)) : Aligned (aggregate rows) := by
  intro p hp
  unfold aggregate at hp ⊢
  cases hU : unionKeys rows with
  | nil => rw [hU] at hp; simp at hp
  | cons k0 ks =>
    rw [hU] at hp
    obtain ⟨k, hk, rfl⟩ := List.mem_map.mp hp
    simp [aggLen, List.length_map]

theorem aligned_merge (aggs : List (Aggregate α)) (hal : ∀ a ∈ aggs, Aligned a) :
    Aligned (mergeAggregates aggs) := by
  intro p hp
  rw [mergeAggregates_eq] at hp ⊢
  cases hU : firstDedup ((aggs.map aggKeys).flatten) with
  | nil => rw [hU] at hp; simp at hp
  | cons k0 ks =>
    rw [hU] at hp
    obtain ⟨k, hk, rfl⟩ := List.mem_map.mp hp
    simp only [List.map_cons, aggLen]
    rw [merged_col_length aggs hal k, merged_col_length aggs hal k0]

theorem removeFromAggregate_ok {a : Aggregate α} {keyRef : String} {values : List α}
    {a' : Aggregate α} (hrm : removeFromAggregate a keyRef values = Except.ok a') :
    ∃ col, alookup keyRef a = some col ∧
      a' = a.map (fun p =>
        (p.1, ((List.range p.2.length).filter (keepPred values col)).filterMap
          (fun i => p.2.get? i))) := by
  unfold removeFromAggregate at hrm
  split at hrm
  · exact absurd hrm (by simp)
  · rename_i col halk
    injection hrm with h
    exact ⟨col, halk, h.symm⟩

theorem removed_col_length {values : List α} {col : Column α} (q2 : Column α)
    (hq2 : q2.length = col.length) :
    (((List.range q2.length).filter (keepPred values col)).filterMap
      (fun i => q2.get? i)).length =
    ((List.range col.length).filter (keepPred values col)).length := by
  have hb : ∀ i ∈ (List.range q2.length).filter (keepPred values col), i < q2.length := by
    intro i hi
    exact List.mem_range.mp (List.mem_filter.mp hi).1
  calc (((List.range q2.length).filter (keepPred values col)).filterMap
      (fun i => q2.get? i)).length
      = (((List.range q2.length).filter (keepPred values col)).filterMap
          (fun i => q2[i]?)).length := by
        simp only [List.get?_eq_getElem?]
    _ = ((List.range q2.length).filter (keepPred values col)).length :=
        length_filterMap_getElem? q2 _ hb
    _ = ((List.range col.length).filter (keepPred values col)).length := by rw [hq2]

theorem aligned_remove {a : Aggregate α} {keyRef : String} {values : List α}
    {a' : Aggregate α} (ha : Aligned a)
    (hrm : removeFromAggregate a keyRef values = Except.ok a') : Aligned a' := by
  obtain ⟨col, hcol, rfl⟩ := removeFromAggregate_ok hrm
  have hcl : col.length = aggLen a := ha _ (alookup_mem hcol)
  intro p' hp'
  obtain ⟨p, hp, rfl⟩ := List.mem_map.mp hp'
  cases a with
  | nil => simp at hp
  | cons q0 rest =>
    simp only [List.map_cons, aggLen]
    rw [removed_col_length p.2 (by rw [ha p hp, hcl]),
      removed_col_length q0.2 (by rw [ha q0 (List.mem_cons_self _ _), hcl])]

/-- C2: every Aggregate produced by encode (`aggregate`), merge
(`mergeAggregates`) on aligned inputs, or removeByKey
(`removeFromAggregate`) on an aligned input satisfies the alignment
invariant: all its columns have identical length. -/
theorem C2_alignment (rows : List (Row α)) (aggs : List (Aggregate α)) (a : Aggregate α)
    (keyRef : String) (values : List α) (a' : Aggregate α)
    (hal : ∀ x ∈ aggs, Aligned x) (ha : Aligned a)
    (hrm : removeFromAggregate a keyRef values = Except.ok a') :
    Aligned (aggregate rows) ∧ Aligned (mergeAggregates aggs) ∧ Aligned a' :=
  ⟨aligned_aggregate rows, aligned_merge aggs hal, aligned_remove ha hrm⟩

def W2rows : List (Row String) :=
  [[("solo", "99")], [("type", "bar"), ("value", "12"), ("other", "ok")]]

def W2agg : Aggregate String :=
  [("type", [some "a", some "b", some "x"]), ("value", [some "1", some "2", some "3"])]

theorem C2_witness :
    (∀ x ∈ W1, Aligned x) ∧ Aligned W2agg ∧
    removeFromAggregate W2agg "type" ["x"] =
      Except.ok [("type", [some "a", some "b"]), ("value", [some "1", some "2"])] ∧
    (Aligned (aggregate W2rows) ∧ Aligned (mergeAggregates W1) ∧
      Aligned [("type", [some "a", some "b"]), ("value", [some "1", some "2"])]) :=
  ⟨by decide, by decide, by decide,
   C2_alignment W2rows W1 W2agg "type" ["x"] _ (by decide) (by decide) (by decide)⟩

theorem nodup_unionKeys (rows : List (Row α)) : (unionKeys rows).Nodup :=
  nodup_firstDedupAux _ []

theorem mem_unionKeys_of_mem_row {rows : List (Row α)} {i : Nat} (hi : i < rows.length)
    {k : String} (hk : k ∈ (rows.get ⟨i, hi⟩).map Prod.fst) : k ∈ unionKeys rows := by
  rw [unionKeys, mem_firstDedup, List.mem_flatten]
  exact ⟨(rows.get ⟨i, hi⟩).map Prod.fst,
    List.mem_map_of_mem _ (List.get_mem rows i hi), hk⟩

theorem rowAt_aggregate (rows : List (Row α)) (i : Nat) (hi : i < rows.length) (k : String) :
    alookup k (rowAt (aggregate rows) i) = alookup k (rows.get ⟨i, hi⟩) := by
  unfold rowAt aggregate
  rw [List.filterMap_map]
  have hcomp : ((fun p : String × Column α => (p.2.getD i none).map (fun v => (p.1, v))) ∘
      (fun k => (k, rows.map (fun r => alookup k r)))) =
      (fun x => (alookup x (rows.get ⟨i, hi⟩)).map (fun v => (x, v))) := by
    funext x
    have hget : (rows.map (fun r => alookup x r)).getD i none =
        alookup x (rows.get ⟨i, hi⟩) := by
      rw [List.getD_eq_getElem?_getD, List.getElem?_map, List.getElem?_eq_getElem hi]
      simp [List.get_eq_getElem]
    simp only [Function.comp]
    rw [hget]
  rw [hcomp, alookup_filterMap_mk (fun x => alookup x (rows.get ⟨i, hi⟩)) _
    (nodup_unionKeys rows) k]
  by_cases hk : k ∈ unionKeys rows
  · rw [if_pos hk]
  · rw [if_neg hk]
    symm
    rw [alookup_eq_none]
    intro hkrow
    exact hk (mem_unionKeys_of_mem_row hi hkrow)

theorem aggLen_aggregate (rows : List (Row α)) (hne : rows = [] ∨ ∃ r ∈ rows, r ≠ []) :
    aggLen (aggregate rows) = rows.length := by
  rcases hne with rfl | ⟨r, hr, hrne⟩
  · rfl
  · cases r with
    | nil => exact absurd rfl hrne
    | cons q qs =>
      have hq : q.1 ∈ unionKeys rows := by
        rw [unionKeys, mem_firstDedup, List.mem_flatten]
        exact ⟨(q :: qs).map Prod.fst, List.mem_map_of_mem _ hr, by simp⟩
      unfold aggregate
      cases hU : unionKeys rows with
      | nil => rw [hU] at hq; simp at hq
      | cons k0 ks => simp [aggLen, List.length_map]

theorem inflate_aggregate_ok (rows : List (Row α)) (hne : rows = [] ∨ ∃ r ∈ rows, r ≠ []) :
    inflateAggregate (aggregate rows) =
      Except.ok ((List.range rows.length).map (fun i => rowAt (aggregate rows) i)) := by
  have hall : (aggregate rows).all
      (fun p => decide (p.2.length = aggLen (aggregate rows))) = true := by
    rw [List.all_eq_true]
    intro p hp
    simpa using aligned_aggregate rows p hp
  unfold inflateAggregate
  rw [if_pos hall, aggLen_aggregate rows hne]

/-- C3 (amended): for every finite row sequence that is empty or contains
at least one row with at least one field, inflating the encoded aggregate
yields exactly as many rows, in order, each reconstructing the original
row as a JS object: every field looks up to the same value, and fields
absent from a source row are absent again (not a stored null). -/
theorem C3_roundtrip (rows : List (Row α)) (hne : rows = [] ∨ ∃ r ∈ rows, r ≠ []) :
    ∃ rows', inflateAggregate (aggregate rows) = Except.ok rows' ∧
      rows'.length = rows.length ∧
      ∀ i (h1 : i < rows'.length) (h2 : i < rows.length) k,
        alookup k (rows'.get ⟨i, h1⟩) = alookup k (rows.get ⟨i, h2⟩) := by
  refine ⟨_, inflate_aggregate_ok rows hne, by simp, ?_⟩
  intro i h1 h2 k
  have hget : ((List.range rows.length).map (fun i => rowAt (aggregate rows) i)).get
      ⟨i, h1⟩ = rowAt (aggregate rows) i := by
    simp [List.get_eq_getElem]
  rw [hget, rowAt_aggregate rows i h2 k]

/-- C3 counterexample: for the one-element sequence holding a single
field-less row, inflating the encoded aggregate cannot return a row
sequence of the original length (the encoding of rows without fields loses
the row count), refuting the round-trip claim as stated. -/
theorem C3_counterexample :
    ¬ ∃ rows' : List (Row String),
        inflateAggregate (aggregate ([[]] : List (Row String))) = Except.ok rows' ∧
        rows'.length = ([[]] : List (Row String)).length := by
  rintro ⟨rows', h1, h2⟩
  have he : inflateAggregate (aggregate ([[]] : List (Row String))) =
      Except.ok ([] : List (Row String)) := rfl
  rw [he] at h1
  injection h1 with h1
  rw [← h1] at h2
  simp at h2

def W3 : List (Row String) := [[("type", "foo"), ("value", "12")], [("type", "bar")]]

theorem C3_witness :
    (W3 = [] ∨ ∃ r ∈ W3, r ≠ []) ∧
    (∃ rows', inflateAggregate (aggregate W3) = Except.ok rows' ∧
      rows'.length = W3.length ∧
      ∀ i (h1 : i < rows'.length) (h2 : i < W3.length) k,
        alookup k (rows'.get ⟨i, h1⟩) = alookup k (W3.get ⟨i, h2⟩)) ∧
    inflateAggregate (aggregate W3) = Except.ok W3 :=
  ⟨by decide, C3_roundtrip W3 (by decide), by decide⟩

theorem mem_keys_rowAt {agg : Aggregate α} {i : Nat} {k : String}
    (h : k ∈ (rowAt agg i).map Prod.fst) : k ∈ agg.map Prod.fst := by
  rw [List.mem_map] at h
  obtain ⟨x, hx, rfl⟩ := h
  rw [rowAt, List.mem_filterMap] at hx
  obtain ⟨p, hp, hpx⟩ := hx
  cases hv : p.2.getD i none with
  | none => rw [hv] at hpx; simp at hpx
  | some v =>
    rw [hv] at hpx
    injection hpx with hpx
    rw [← hpx]
    exact List.mem_map_of_mem _ hp

theorem alookup_rowAt (agg : Aggregate α) (i : Nat) (hnd : (aggKeys agg).Nodup)
    (k : String) :
    alookup k (rowAt agg i) = (alookup k agg).bind (fun col => col.getD i none) := by
  induction agg with
  | nil => simp [rowAt, alookup]
  | cons p rest ih =>
    have hnd' := hnd
    rw [aggKeys, List.map_cons, List.nodup_cons] at hnd'
    obtain ⟨hp1, hrest⟩ := hnd'
    cases hv : p.2.getD i none with
    | none =>
      have hstep : rowAt (p :: rest) i = rowAt rest i := by
        rw [rowAt, rowAt]
        refine List.filterMap_cons_none ?_
        show (p.2.getD i none).map (fun v => (p.1, v)) = none
        rw [hv]
        rfl
      rw [hstep]
      by_cases hk : k = p.1
      · subst hk
        rw [alookup, if_pos rfl]
        have hnone : alookup p.1 (rowAt rest i) = none := by
          rw [alookup_eq_none]
          intro hc
          exact hp1 (mem_keys_rowAt hc)
        rw [hnone]
        exact hv.symm
      · rw [alookup, if_neg hk]
        exact ih hrest
    | some v =>
      have hstep : rowAt (p :: rest) i = (p.1, v) :: rowAt rest i := by
        rw [rowAt, rowAt]
        refine List.filterMap_cons_some ?_
        show (p.2.getD i none).map (fun v => (p.1, v)) = some (p.1, v)
        rw [hv]
        rfl
      rw [hstep]
      by_cases hk : k = p.1
      · subst hk
        rw [alookup, if_pos rfl, alookup, if_pos rfl]
        exact hv.symm
      · rw [alookup, if_neg hk, alookup, if_neg hk]
        exact ih hrest

/-- C4: `inflateAggregate` raises an AsymmetryError exactly when two
columns of its input have different lengths, returning no row sequence at
all in that case; on an input whose columns all have equal length `n` it
returns exactly `n` rows, the `i`-th built from position `i` of every
column (for well-formed aggregates with distinct keys). -/
theorem C4_asymmetry (agg : Aggregate α) :
    ((∃ e, inflateAggregate agg = Except.error e) ↔
      ∃ p ∈ agg, ∃ q ∈ agg, p.2.length ≠ q.2.length) ∧
    (∀ rows', inflateAggregate agg = Except.ok rows' →
      rows'.length = aggLen agg ∧
      ((aggKeys agg).Nodup →
        ∀ i (hi : i < rows'.length) k,
          alookup k (rows'.get ⟨i, hi⟩) =
            (alookup k agg).bind (fun col => col.getD i none))) := by
  by_cases hall : agg.all (fun p => decide (p.2.length = aggLen agg)) = true
  · have hok : inflateAggregate agg =
        Except.ok ((List.range (aggLen agg)).map (fun i => rowAt agg i)) := by
      unfold inflateAggregate
      rw [if_pos hall]
    rw [List.all_eq_true] at hall
    constructor
    · constructor
      · rintro ⟨e, he⟩
        rw [hok] at he
        exact absurd he (by simp)
      · rintro ⟨p, hp, q, hq, hne⟩
        have h1 : p.2.length = aggLen agg := by simpa using hall p hp
        have h2 : q.2.length = aggLen agg := by simpa using hall q hq
        exact absurd (h1.trans h2.symm) hne
    · intro rows' hrows'
      rw [hok] at hrows'
      injection hrows' with hrows'
      subst hrows'
      refine ⟨by simp, ?_⟩
      intro hnd i hi k
      have hget : ((List.range (aggLen agg)).map (fun i => rowAt agg i)).get ⟨i, hi⟩ =
          rowAt agg i := by
        simp [List.get_eq_getElem]
      rw [hget, alookup_rowAt agg i hnd k]
  · have herr : inflateAggregate agg = Except.error "AsymmetryError" := by
      unfold inflateAggregate
      rw [if_neg hall]
    constructor
    · constructor
      · intro _
        rw [List.all_eq_true] at hall
        push_neg at hall
        obtain ⟨p, hp, hpne⟩ := hall
        have hpne' : p.2.length ≠ aggLen agg := by simpa using hpne
        cases hagg : agg with
        | nil => rw [hagg] at hp; simp at hp
        | cons q0 rest =>
          subst hagg
          refine ⟨p, hp, q0, List.mem_cons_self _ _, ?_⟩
          simpa [aggLen] using hpne'
      · intro _
        exact ⟨"AsymmetryError", herr⟩
    · intro rows' hrows'
      rw [herr] at hrows'
      exact absurd hrows' (by simp)

def W4 : Aggregate String := [("type", [some "a", some "b"]), ("value", [some "1", some "2"])]

def W4bad : Aggregate String :=
  [("type", [some "thing", some "widget"]), ("value", [some "0", some "foo", some "whoops"])]

theorem C4_witness :
    inflateAggregate W4 =
      Except.ok [[("type", "a"), ("value", "1")], [("type", "b"), ("value", "2")]] ∧
    ((∃ e, inflateAggregate W4bad = Except.error e) ↔
      ∃ p ∈ W4bad, ∃ q ∈ W4bad, p.2.length ≠ q.2.length) ∧
    ([[("type", "a"), ("value", "1")], [("type", "b"), ("value", "2")]] :
      List (Row String)).length = aggLen W4 :=
  ⟨by decide, (C4_asymmetry W4bad).1, ((C4_asymmetry W4).2 _ (by decide)).1⟩

theorem filterMap_get?_range {γ : Type} :
    ∀ cs : List γ, (List.range cs.length).filterMap (fun i => cs.get? i) = cs
  | [] => by simp
  | x :: cs => by
    rw [List.length_cons, List.range_succ_eq_map]
    have hstep :
        (0 :: (List.range cs.length).map (· + 1)).filterMap (fun i => (x :: cs).get? i) =
          x :: ((List.range cs.length).map (· + 1)).filterMap (fun i => (x :: cs).get? i) :=
      List.filterMap_cons_some (by simp)
    rw [hstep, List.filterMap_map]
    have hcomp : ((fun i => (x :: cs).get? i) ∘ (· + 1)) = (fun i => cs.get? i) := by
      funext i
      simp
    rw [hcomp, filterMap_get?_range cs]

/-- C5: for an aligned Aggregate containing the scanned key,
`removeFromAggregate` returns an Aggregate whose scanned column contains no
removed value, whose every column keeps exactly the entries at the
surviving positions in their original relative order, and which equals the
input when no value of the scanned column is slated for removal. -/
theorem C5_remove (a : Aggregate α) (keyRef : String) (values : List α)
    (col : Column α) (a' : Aggregate α) (ha : Aligned a)
    (hcol : alookup keyRef a = some col)
    (hrm : removeFromAggregate a keyRef values = Except.ok a') :
    (∀ col', alookup keyRef a' = some col' → ∀ v ∈ values, some v ∉ col') ∧
    (∀ k' c', alookup k' a = some c' →
      alookup k' a' = some ((survivors values col).filterMap (fun i => c'.get? i))) ∧
    ((∀ v ∈ values, some v ∉ col) → a' = a) := by
  obtain ⟨col0, hcol0, rfl⟩ := removeFromAggregate_ok hrm
  rw [hcol] at hcol0
  injection hcol0 with hcol0
  subst hcol0
  have hcoll : col.length = aggLen a := ha _ (alookup_mem hcol)
  have hmain : ∀ k' c', alookup k' a = some c' →
      alookup k' (a.map (fun p =>
        (p.1, ((List.range p.2.length).filter (keepPred values col)).filterMap
          (fun i => p.2.get? i)))) =
      some ((survivors values col).filterMap (fun i => c'.get? i)) := by
    intro k' c' hc'
    rw [alookup_map_val (fun c =>
      ((List.range c.length).filter (keepPred values col)).filterMap
        (fun i => c.get? i)) a k', hc']
    have hlen : c'.length = col.length := by
      rw [hcoll]
      exact ha _ (alookup_mem hc')
    rw [Option.map_some']
    have hsurv : (List.range c'.length).filter (keepPred values col) =
        survivors values col := by
      rw [hlen]
      rfl
    rw [hsurv]
  refine ⟨?_, hmain, ?_⟩
  · intro col' hcol' v hv hmem
    rw [hmain keyRef col hcol] at hcol'
    injection hcol' with hcol'
    rw [← hcol'] at hmem
    rw [List.mem_filterMap] at hmem
    obtain ⟨i, hi, hget⟩ := hmem
    rw [survivors, List.mem_filter] at hi
    obtain ⟨hir, hkeep⟩ := hi
    have higet : col.getD i none = some v := by
      rw [List.getD_eq_getElem?_getD, ← List.get?_eq_getElem?, hget]
      rfl
    rw [keepPred] at hkeep
    rw [higet] at hkeep
    simp [entryMatches, hv] at hkeep
  · intro hnone
    have hid : ∀ p ∈ a, (p.1, ((List.range p.2.length).filter
        (keepPred values col)).filterMap (fun i => p.2.get? i)) = p := by
      intro p hp
      have hkeepall : (List.range p.2.length).filter (keepPred values col) =
          List.range p.2.length := by
        rw [List.filter_eq_self]
        intro i hir
        have hilt : i < col.length := by
          rw [hcoll, ← ha p hp]
          exact List.mem_range.mp hir
        rw [keepPred]
        cases hv : col.getD i none with
        | none => simp [entryMatches]
        | some v =>
          have hvin : some v ∈ col := by
            rw [List.getD_eq_getElem?_getD, List.getElem?_eq_getElem hilt] at hv
            rw [← hv]
            exact List.getElem_mem hilt
          simp only [entryMatches, Bool.not_eq_eq_eq_not, Bool.not_true]
          by_cases hvv : v ∈ values
          · exact absurd hvin (hnone v hvv)
          · simp [hvv]
      rw [hkeepall, filterMap_get?_range]
    calc a.map (fun p => (p.1, ((List.range p.2.length).filter
          (keepPred values col)).filterMap (fun i => p.2.get? i)))
        = a.map id := List.map_congr_left (fun p hp => hid p hp)
      _ = a := List.map_id a

def W5 : Aggregate String :=
  [("type", [some "a", some "b", some "x", some "y", some "z"]),
   ("value", [some "t", some "f", some "1", some "2", some "3"])]

def W5col : Column String := [some "a", some "b", some "x", some "y", some "z"]

def W5res : Aggregate String :=
  [("type", [some "a", some "b", some "y"]), ("value", [some "t", some "f", some "2"])]

theorem C5_witness :
    (Aligned W5 ∧ alookup "type" W5 = some W5col ∧
      removeFromAggregate W5 "type" ["x", "z"] = Except.ok W5res) ∧
    (∀ v ∈ ["x", "z"], some v ∉ ([some "a", some "b", some "y"] : Column String)) ∧
    survivors ["x", "z"] W5col = [0, 1, 3] :=
  ⟨⟨by decide, by decide, by decide⟩,
   (C5_remove W5 "type" ["x", "z"] W5col W5res (by decide) (by decide) (by decide)).1
     [some "a", some "b", some "y"] (by decide),
   by decide⟩

-- Time-scoped query engine, embedded from src/vault/src/queries.js.

/-- Code-unit-wise lexicographic comparison of character lists, the order
JS string comparison uses. -/
def charListLeb : List Char → List Char → Bool
  | [], _ => true
  | _ :: _, [] => false
  | x :: xs, y :: ys =>
    if x.toNat < y.toNat then true
    else if y.toNat < x.toNat then false
    else charListLeb xs ys

/-- JS string comparison `a <= b`, as a boolean. -/
def strLeb (a b : String) : Bool := charListLeb a.data b.data

/-- JS string comparison `a <= b`, as a proposition. -/
def strLe (a b : String) : Prop := strLeb a b = true

instance : DecidableRel strLe :=
  fun a b => inferInstanceAs (Decidable (strLeb a b = true))

theorem charListLeb_total : ∀ xs ys : List Char,
    charListLeb xs ys = true ∨ charListLeb ys xs = true := by
  intro xs
  induction xs with
  | nil => intro ys; left; rfl
  | cons x xs ih =>
    intro ys
    cases ys with
    | nil => right; rfl
    | cons y ys =>
      rcases Nat.lt_trichotomy x.toNat y.toNat with h | h | h
      · left; simp [charListLeb, h]
      · have h1 : ¬ x.toNat < y.toNat := by omega
        have h2 : ¬ y.toNat < x.toNat := by omega
        rcases ih ys with hl | hr
        · left; simp [charListLeb, h1, h2, hl]
        · right; simp [charListLeb, h1, h2, hr]
      · right; simp [charListLeb, h]

theorem charListLeb_trans : ∀ xs ys zs : List Char,
    charListLeb xs ys = true → charListLeb ys zs = true → charListLeb xs zs = true := by
  intro xs
  induction xs with
  | nil => intro ys zs _ _; rfl
  | cons x xs ih =>
    intro ys zs h1 h2
    cases ys with
    | nil => simp [charListLeb] at h1
    | cons y ys =>
      cases zs with
      | nil => simp [charListLeb] at h2
      | cons z zs =>
        simp only [charListLeb] at h1 h2 ⊢
        by_cases hxy : x.toNat < y.toNat
        · by_cases hyz : y.toNat < z.toNat
          · have hlt : x.toNat < z.toNat := Nat.lt_trans hxy hyz
            simp [hlt]
          · by_cases hzy : z.toNat < y.toNat
            · simp [hyz, hzy] at h2
            · have hlt : x.toNat < z.toNat := by omega
              simp [hlt]
        · by_cases hyx : y.toNat < x.toNat
          · simp [hxy, hyx] at h1
          · by_cases hyz : y.toNat < z.toNat
            · have hlt : x.toNat < z.toNat := by omega
              simp [hlt]
            · by_cases hzy : z.toNat < y.toNat
              · simp [hyz, hzy] at h2
              · have hxz : ¬ x.toNat < z.toNat := by omega
                have hzx : ¬ z.toNat < x.toNat := by omega
                simp only [hxy, hyx, if_neg, ite_false] at h1
                simp only [hyz, hzy, if_neg, ite_false] at h2
                simp only [hxz, hzx, if_neg, ite_false]
                exact ih ys zs (by simpa using h1) (by simpa using h2)

theorem strLe_total (a b : String) : strLe a b ∨ strLe b a :=
  charListLeb_total a.data b.data

theorem strLe_trans {a b c : String} (h1 : strLe a b) (h2 : strLe b c) : strLe a c :=
  charListLeb_trans a.data b.data c.data h1 h2

/-- A parsed URL, reduced to the components the queries read. -/
structure Url where
  host : String
  href : String
  origin : String
  pathname : String
deriving DecidableEq

/-- A stored, decrypted event as the queries see it: `timestamp` is the
ISO-8601 string `payload.timestamp` (ISO strings compare like the code's
string comparison), `sessionId` stands for `payload.sessionId`, and
`href`/`referrer` stand for the already parsed `payload.href` and
`payload.referrer` (`none` models an absent or empty referrer). -/
structure Event where
  timestamp : String
  userId : Option String
  accountId : Option String
  sessionId : Option String
  href : Url
  referrer : Option Url
deriving DecidableEq

/-- Ordering of events by an indexed field, as `table.orderBy(index)`
iterates them. -/
def eventIdxLe (idx : Event → Option String) (a b : Event) : Prop :=
  strLe ((idx a).getD "") ((idx b).getD "")

instance (idx : Event → Option String) : DecidableRel (eventIdxLe idx) :=
  fun a b => inferInstanceAs (Decidable (strLe ((idx a).getD "") ((idx b).getD "")))

/-- `table.orderBy(index)`: the stored events that carry the indexed
field, sorted by it (a Dexie index omits records whose indexed property is
missing). -/
def orderBy (idx : Event → Option String) (table : List Event) : List Event :=
  List.insertionSort (eventIdxLe idx) (table.filter (fun e => (idx e).isSome))

/-- `queryWithScope(table, lowerBound, upperBound).items(index)`:
the events of the index (those carrying the indexed field), ordered by it
and filtered to
`lowerBound <= payload.timestamp && payload.timestamp <= upperBound`
(queries.js lines 18-25). -/
def scopedItems (table : List Event) (idx : Event → Option String)
    (lowerBound upperBound : String) : List Event :=
  (orderBy idx table).filter
    (fun e => strLeb lowerBound e.timestamp && strLeb e.timestamp upperBound)

/-- `queryWithScope(...).uniqueCount(index)`: the number of distinct
values of the indexed field among the scoped events (absent values are not
indexed, hence not counted). -/
def scopedUniqueCount (table : List Event) (idx : Event → Option String)
    (lowerBound upperBound : String) : Nat :=
  ((scopedItems table idx lowerBound upperBound).filterMap idx).dedup.length

/-- A calendar date-time (modelled in UTC, as `Date`/date-fns values whose
JSON form is an ISO-8601 string). -/
structure DateTime where
  year : Int
  month : Int
  day : Int
  hour : Nat
  minute : Nat
  second : Nat
  ms : Nat
deriving DecidableEq

/-- Days since 1970-01-01 of a civil date (standard civil-from-days
algorithm, floor divisions throughout). -/
def daysFromCivil (y m d : Int) : Int :=
  let yy := if m ≤ 2 then y - 1 else y
  let era := yy.fdiv 400
  let yoe := yy - era * 400
  let doy := (153 * (m + (if m > 2 then -3 else 9)) + 2).fdiv 5 + d - 1
  let doe := yoe * 365 + yoe.fdiv 4 - yoe.fdiv 100 + doy
  era * 146097 + doe - 719468

/-- The civil date of a count of days since 1970-01-01 (inverse of
`daysFromCivil`). -/
def civilFromDays (z0 : Int) : Int × Int × Int :=
  let z := z0 + 719468
  let era := z.fdiv 146097
  let doe := z - era * 146097
  let yoe := (doe - doe.fdiv 1460 + doe.fdiv 36524 - doe.fdiv 146096).fdiv 365
  let y := yoe + era * 400
  let doy := doe - (365 * yoe + yoe.fdiv 4 - yoe.fdiv 100)
  let mp := (5 * doy + 2).fdiv 153
  let d := doy - (153 * mp + 2).fdiv 5 + 1
  let m := if mp < 10 then mp + 3 else mp - 9
  (if m ≤ 2 then y + 1 else y, m, d)

/-- date-fns `addDays` (also with negative counts), keeping the time of
day. -/
def addDays (dt : DateTime) (n : Int) : DateTime :=
  let c := civilFromDays (daysFromCivil dt.year dt.month dt.day + n)
  { dt with year := c.1, month := c.2.1, day := c.2.2 }

/-- date-fns `startOfDay`. -/
def startOfDay (dt : DateTime) : DateTime :=
  { dt with hour := 0, minute := 0, second := 0, ms := 0 }

/-- date-fns `endOfDay`. -/
def endOfDay (dt : DateTime) : DateTime :=
  { dt with hour := 23, minute := 59, second := 59, ms := 999 }

/-- Left-pad a numeral to two digits. -/
def pad2 (n : Nat) : String :=
  if n < 10 then "0" ++ toString n else toString n

/-- Left-pad a numeral to three digits. -/
def pad3 (n : Nat) : String :=
  if n < 10 then "00" ++ toString n
  else if n < 100 then "0" ++ toString n
  else toString n

/-- Left-pad a numeral to four digits. -/
def pad4 (n : Nat) : String :=
  if n < 10 then "000" ++ toString n
  else if n < 100 then "00" ++ toString n
  else if n < 1000 then "0" ++ toString n
  else toString n

/-- `Date.prototype.toJSON`: the ISO-8601 string of the instant. -/
def DateTime.toJSON (dt : DateTime) : String :=
  pad4 dt.year.toNat ++ "-" ++ pad2 dt.month.toNat ++ "-" ++ pad2 dt.day.toNat ++ "T" ++
    pad2 dt.hour ++ ":" ++ pad2 dt.minute ++ ":" ++ pad2 dt.second ++ "." ++
    pad3 dt.ms ++ "Z"

/-- date-fns `format(date, 'DD.MM.YYYY')`. -/
def formatDDMMYYYY (dt : DateTime) : String :=
  pad2 dt.day.toNat ++ "." ++ pad2 dt.month.toNat ++ "." ++ pad4 dt.year.toNat

/-- One day bucket of the pageviews time series: the formatted date label
and the count. -/
structure DayBucket where
  date : String
  value : Nat
deriving DecidableEq

/-- The `_.sortBy(days, 'date')` order: buckets compared by their
formatted date string. -/
def bucketLe (a b : DayBucket) : Prop := strLe a.date b.date

instance : DecidableRel bucketLe :=
  fun a b => inferInstanceAs (Decidable (strLe a.date b.date))

instance : IsTotal DayBucket bucketLe := ⟨fun a b => strLe_total a.date b.date⟩

instance : IsTrans DayBucket bucketLe := ⟨fun _ _ _ h1 h2 => strLe_trans h1 h2⟩

/-- The bucket computed for day `distance` of the pageviews series
(queries.js lines 42-54): its own day bounds filter the whole event table
via `inAnyRange([[startOfDay(...), endOfDay(...)]])`, whose Dexie default
includes the lower bound and excludes the upper one, and the bucket is
labelled `format(date, 'DD.MM.YYYY')`. -/
def dayBucket (table : List Event) (now : DateTime) (distance : Nat) : DayBucket :=
  let date := addDays now (-(distance : Int))
  let lowerBound := (startOfDay date).toJSON
  let upperBound := (endOfDay date).toJSON
  { date := formatDDMMYYYY date,
    value := (table.filter (fun e =>
      strLeb lowerBound e.timestamp && !(strLeb upperBound e.timestamp))).length }

/-- The pageviews time series: one bucket per distance `0..numDays-1`,
then `_.sortBy(days, 'date')` (queries.js lines 42-57). -/
def pageviewsFor (table : List Event) (now : DateTime) (numDays : Nat) : List DayBucket :=
  List.insertionSort bucketLe ((List.range numDays).map (fun d => dayBucket table now d))

/-- One entry of the referrers ranking. -/
structure RefStat where
  host : String
  pageviews : Nat
deriving DecidableEq

/-- The referrer grouping key of an event (queries.js lines 66-80): events
with no (or empty) referrer, or whose referrer host equals the event's own
href host, are dropped; the key is the referrer's host, or its full href
when the host is empty; an empty key is dropped. -/
def refValue (e : Event) : Option String :=
  match e.referrer with
  | none => none
  | some r =>
    if r.host = e.href.host then none
    else
      let v := if r.host = "" then r.href else r.host
      if v = "" then none else some v

/-- The `_.sortBy(unique, 'pageviews')` order on referrer stats. -/
def refLe (a b : RefStat) : Prop := a.pageviews ≤ b.pageviews

instance : DecidableRel refLe :=
  fun a b => inferInstanceAs (Decidable (a.pageviews ≤ b.pageviews))

instance : IsTotal RefStat refLe := ⟨fun a b => Nat.le_total a.pageviews b.pageviews⟩

instance : IsTrans RefStat refLe := ⟨fun _ _ _ h1 h2 => Nat.le_trans h1 h2⟩

/-- The referrers statistic (queries.js lines 63-91): over all stored
events, group the qualifying referrer keys, count occurrences per key,
sort ascending by count and reverse (descending). -/
def referrersOf (events : List Event) : List RefStat :=
  let keys := events.filterMap refValue
  (List.insertionSort refLe
    ((firstDedup keys).map (fun h => { host := h, pageviews := keys.count h }))).reverse

/-- One entry of the pages ranking. -/
structure PageStat where
  origin : String
  pathname : String
  pageviews : Nat
deriving DecidableEq

/-- The `_.sortBy(pages, 'pageviews')` order on page stats. -/
def pageLe (a b : PageStat) : Prop := a.pageviews ≤ b.pageviews

instance : DecidableRel pageLe :=
  fun a b => inferInstanceAs (Decidable (a.pageviews ≤ b.pageviews))

instance : IsTotal PageStat pageLe := ⟨fun a b => Nat.le_total a.pageviews b.pageviews⟩

instance : IsTrans PageStat pageLe := ⟨fun _ _ _ h1 h2 => Nat.le_trans h1 h2⟩

/-- The compound index key `[accountId+payload.href]` of an event
(present only when the event carries an accountId). -/
def pageKey (e : Event) : Option (String × String) :=
  e.accountId.map (fun a => (a, e.href.href))

/-- The compound key rendered as one string, for the index ordering. -/
def pageIdx (e : Event) : Option String :=
  (pageKey e).map (fun p => p.1 ++ "|" ++ p.2)

/-- The pages statistic (queries.js lines 93-110): the distinct compound
keys of the scoped events; for each, the count of matching stored events
and the origin/pathname of the first matching one; sorted ascending by
count. -/
def pagesOf (db : List Event) (lowerBound upperBound : String) :
    Except String (List PageStat) :=
  let keys := firstDedup ((scopedItems db pageIdx lowerBound upperBound).filterMap pageKey)
  (keys.mapM (fun key =>
    let matching := db.filter (fun e => decide (pageKey e = some key))
    match matching.head? with
    | none => Except.error "no matching event"
    | some ev =>
      Except.ok ({ origin := ev.href.origin, pathname := ev.href.pathname,
                   pageviews := matching.length } : PageStat))).map
    (fun ps => List.insertionSort pageLe ps)

/-- The `query` argument of `generateDefaultStats`; `numDays = none`
models an omitted or otherwise falsy value. -/
structure StatsQuery where
  numDays : Option Nat
deriving DecidableEq

/-- `var numDays = (query && query.numDays) || 7` (queries.js line 34):
a missing query, a missing numDays, or numDays 0 all fall back to 7. -/
def effectiveNumDays (q : Option StatsQuery) : Nat :=
  match q with
  | none => 7
  | some qq =>
    match qq.numDays with
    | none => 7
    | some n => if n = 0 then 7 else n

/-- `beginning.toJSON()`: the scope lower bound
`startOfDay(addDays(now, -numDays))` (queries.js lines 36-38). -/
def scopeLower (q : Option StatsQuery) (now : DateTime) : String :=
  (startOfDay (addDays now (-(effectiveNumDays q : Int)))).toJSON

/-- `now.toJSON()`: the scope upper bound (queries.js line 39). -/
def scopeUpper (now : DateTime) : String := now.toJSON

/-- The uniqueUsers sub-computation (queries.js line 59). -/
def uniqueUsersOf (db : List Event) (lowerBound upperBound : String) : Except String Nat :=
  Except.ok (scopedUniqueCount db (fun e => e.userId) lowerBound upperBound)

/-- The uniqueAccounts sub-computation (queries.js line 60). -/
def uniqueAccountsOf (db : List Event) (lowerBound upperBound : String) :
    Except String Nat :=
  Except.ok (scopedUniqueCount db (fun e => e.accountId) lowerBound upperBound)

/-- The uniqueSessions sub-computation (queries.js line 61). -/
def uniqueSessionsOf (db : List Event) (lowerBound upperBound : String) :
    Except String Nat :=
  Except.ok (scopedUniqueCount db (fun e => e.sessionId) lowerBound upperBound)

/-- The referrers sub-computation as a promise (queries.js lines 63-91):
it reads the whole table, never the scope bounds. -/
def referrersPromise (db : List Event) : Except String (List RefStat) :=
  Except.ok (referrersOf db)

/-- The pageviews sub-computation as a promise (queries.js lines 42-57). -/
def pageviewsPromise (db : List Event) (now : DateTime) (numDays : Nat) :
    Except String (List DayBucket) :=
  Except.ok (pageviewsFor db now numDays)

/-- The composite statistics report. -/
structure StatsReport where
  uniqueUsers : Nat
  uniqueAccounts : Nat
  uniqueSessions : Nat
  referrers : List RefStat
  pages : List PageStat
  pageviews : List DayBucket
deriving DecidableEq

/-- The `Promise.all([...]).then(...)` assembly (queries.js lines
112-130): the report exists only when every sub-computation succeeds, and
a failure of any sub-computation fails the whole invocation with that
error (the first one, in the array order of the source). -/
def assembleStats (uu ua us : Except String Nat) (rf : Except String (List RefStat))
    (pg : Except String (List PageStat)) (pv : Except String (List DayBucket)) :
    Except String StatsReport :=
  match uu with
  | Except.error e => Except.error e
  | Except.ok uu' =>
    match ua with
    | Except.error e => Except.error e
    | Except.ok ua' =>
      match us with
      | Except.error e => Except.error e
      | Except.ok us' =>
        match rf with
        | Except.error e => Except.error e
        | Except.ok rf' =>
          match pg with
          | Except.error e => Except.error e
          | Except.ok pg' =>
            match pv with
            | Except.error e => Except.error e
            | Except.ok pv' =>
              Except.ok { uniqueUsers := uu', uniqueAccounts := ua',
                          uniqueSessions := us', referrers := rf',
                          pages := pg', pageviews := pv' }

/-- `generateDefaultStats(db, query)` (queries.js lines 33-131), with the
impure `new Date()` made an explicit `now` parameter. -/
def generateDefaultStats (db : List Event) (q : Option StatsQuery) (now : DateTime) :
    Except String StatsReport :=
  assembleStats
    (uniqueUsersOf db (scopeLower q now) (scopeUpper now))
    (uniqueAccountsOf db (scopeLower q now) (scopeUpper now))
    (uniqueSessionsOf db (scopeLower q now) (scopeUpper now))
    (referrersPromise db)
    (pagesOf db (scopeLower q now) (scopeUpper now))
    (pageviewsPromise db now (effectiveNumDays q))

/-- The chronological-order key of a `DD.MM.YYYY` label: the same date
rendered `YYYYMMDD`, so that string order on keys is calendar order. -/
def chronKey (s : String) : String :=
  s.drop 6 ++ (s.drop 3).take 2 ++ s.take 2

/-- Calendar order on day buckets via their `DD.MM.YYYY` labels. -/
def chronLe (a b : DayBucket) : Prop := strLe (chronKey a.date) (chronKey b.date)

instance : DecidableRel chronLe :=
  fun a b => inferInstanceAs (Decidable (strLe (chronKey a.date) (chronKey b.date)))

def C7now : DateTime :=
  { year := 2026, month := 10, day := 3, hour := 12, minute := 0, second := 0, ms := 0 }

def C7boundaryEvent : Event :=
  { timestamp := "2026-10-03T23:59:59.999Z", userId := some "u1",
    accountId := some "a1", sessionId := some "s1",
    href := { host := "www.offen.dev", href := "https://www.offen.dev/",
              origin := "https://www.offen.dev", pathname := "/" },
    referrer := none }

/-- C7 counterexample: the claim fails on the code in two ways. With
`now` = 2026-10-03 and the default seven days, the pageviews series (here
over an empty table) is NOT sorted ascending by calendar date:
`_.sortBy(days, 'date')` sorts the `DD.MM.YYYY` strings lexicographically,
which puts the October days before the late-September days.  And the
bucket bound is not the claimed inclusive `[startOfDay, endOfDay]`: an
event timestamped exactly `endOfDay(now).toJSON()` lies inside that
inclusive interval yet is not counted, because `inAnyRange` excludes the
upper bound by default. -/
theorem C7_counterexample :
    ¬ List.Pairwise chronLe (pageviewsFor [] C7now 7) ∧
    (dayBucket [C7boundaryEvent] C7now 0).value = 0 ∧
    strLe ((startOfDay (addDays C7now (-(0 : Int)))).toJSON) C7boundaryEvent.timestamp ∧
    strLe C7boundaryEvent.timestamp
      ((endOfDay (addDays C7now (-(0 : Int)))).toJSON) := by decide

/-- C7 (amended): the pageviews series has one bucket per day distance
(`numDays` buckets), the bucket for distance `d` counting events within
that day's own bounds — the half-open interval
`[startOfDay(now-d), endOfDay(now-d))`, the upper bound excluded by
`inAnyRange`'s Dexie default, so the final representable millisecond of
the day is not counted — and labelled with its calendar date; the
returned sequence is sorted ascending by the formatted `DD.MM.YYYY` date
string (lexicographically), which agrees with calendar order only within
a single month. -/
theorem C7_pageviews (table : List Event) (now : DateTime) (numDays : Nat) :
    (pageviewsFor table now numDays).length = numDays ∧
    (pageviewsFor table now numDays).Perm
      ((List.range numDays).map (fun d => dayBucket table now d)) ∧
    List.Pairwise bucketLe (pageviewsFor table now numDays) ∧
    (∀ d : Nat, (dayBucket table now d).date = formatDDMMYYYY (addDays now (-(d : Int))) ∧
      (dayBucket table now d).value = (table.filter (fun e =>
        strLeb ((startOfDay (addDays now (-(d : Int)))).toJSON) e.timestamp &&
        !(strLeb ((endOfDay (addDays now (-(d : Int)))).toJSON) e.timestamp))).length) := by
  refine ⟨?_, List.perm_insertionSort _ _, ?_, ?_⟩
  · rw [pageviewsFor, List.length_insertionSort, List.length_map, List.length_range]
  · exact List.sorted_insertionSort bucketLe _
  · intro d
    exact ⟨rfl, rfl⟩

/-- C8: the referrers statistic is computed over all stored events without
the time scope; it keeps exactly the events with a present referrer whose
host differs from the event's own href host (grouping by referrer host, or
the full referrer value when the host is empty, dropping an empty key),
counts occurrences per group, and sorts the groups descending by count. -/
theorem C8_referrers (events db : List Event) (q : Option StatsQuery) (now : DateTime) :
    (∀ r, generateDefaultStats db q now = Except.ok r → r.referrers = referrersOf db) ∧
    (∀ s ∈ referrersOf events,
      s.pageviews = (events.filterMap refValue).count s.host ∧ 0 < s.pageviews) ∧
    (∀ h, (∃ s ∈ referrersOf events, s.host = h) ↔ h ∈ events.filterMap refValue) ∧
    List.Pairwise (fun a b : RefStat => b.pageviews ≤ a.pageviews) (referrersOf events) ∧
    (∀ e, (refValue e).isSome = true ↔
      ∃ u, e.referrer = some u ∧ u.host ≠ e.href.host ∧
        (if u.host = "" then u.href else u.host) ≠ "") := by
  refine ⟨?_, ?_, ?_, ?_, ?_⟩
  · intro r hr
    rw [generateDefaultStats] at hr
    cases hpg : pagesOf db (scopeLower q now) (scopeUpper now) with
    | error e =>
      rw [hpg] at hr
      simp [assembleStats, uniqueUsersOf, uniqueAccountsOf, uniqueSessionsOf,
        referrersPromise, pageviewsPromise] at hr
    | ok pg =>
      rw [hpg] at hr
      simp only [assembleStats, uniqueUsersOf, uniqueAccountsOf, uniqueSessionsOf,
        referrersPromise, pageviewsPromise, Except.ok.injEq] at hr
      rw [← hr]
  · intro s hs
    simp only [referrersOf] at hs
    rw [List.mem_reverse, List.mem_insertionSort] at hs
    obtain ⟨h, hh, rfl⟩ := List.mem_map.mp hs
    refine ⟨rfl, ?_⟩
    exact List.count_pos_iff.mpr ((mem_firstDedup h _).mp hh)
  · intro h
    constructor
    · rintro ⟨s, hs, hhost⟩
      simp only [referrersOf] at hs
      rw [List.mem_reverse, List.mem_insertionSort] at hs
      obtain ⟨h', hh', rfl⟩ := List.mem_map.mp hs
      rw [← hhost]
      exact (mem_firstDedup h' _).mp hh'
    · intro hk
      refine ⟨{ host := h, pageviews := (events.filterMap refValue).count h }, ?_, rfl⟩
      simp only [referrersOf]
      rw [List.mem_reverse, List.mem_insertionSort]
      exact List.mem_map_of_mem _ ((mem_firstDedup h _).mpr hk)
  · simp only [referrersOf]
    rw [List.pairwise_reverse]
    exact List.sorted_insertionSort refLe _
  · intro e
    cases href : e.referrer with
    | none => simp [refValue, href]
    | some u =>
      simp only [refValue, href]
      by_cases h1 : u.host = e.href.host
      · simp [h1]
      · simp only [if_neg h1]
        by_cases h2 : (if u.host = "" then u.href else u.host) = ""
        · simp [h2, h1]
        · simp [h2, h1]

def W8href : Url :=
  { host := "www.offen.dev", href := "https://www.offen.dev/foo/",
    origin := "https://www.offen.dev", pathname := "/foo/" }

def W8ref : Url :=
  { host := "blog.foo.bar", href := "https://blog.foo.bar/",
    origin := "https://blog.foo.bar", pathname := "/" }

def W8e : Event :=
  { timestamp := "2026-09-20T09:00:00.000Z", userId := some "u1",
    accountId := some "a1", sessionId := some "s1", href := W8href,
    referrer := some W8ref }

def W8now : DateTime :=
  { year := 2026, month := 9, day := 20, hour := 10, minute := 0, second := 0, ms := 0 }

def W8report : StatsReport :=
  { uniqueUsers := 0, uniqueAccounts := 0, uniqueSessions := 0, referrers := [],
    pages := [],
    pageviews :=
      [{ date := "14.09.2026", value := 0 }, { date := "15.09.2026", value := 0 },
       { date := "16.09.2026", value := 0 }, { date := "17.09.2026", value := 0 },
       { date := "18.09.2026", value := 0 }, { date := "19.09.2026", value := 0 },
       { date := "20.09.2026", value := 0 }] }

theorem C8_witness :
    generateDefaultStats [] none W8now = Except.ok W8report ∧
    W8report.referrers = referrersOf [] ∧
    ({ host := "blog.foo.bar", pageviews := 1 } : RefStat) ∈ referrersOf [W8e] ∧
    (({ host := "blog.foo.bar", pageviews := 1 } : RefStat).pageviews =
        ([W8e].filterMap refValue).count "blog.foo.bar" ∧
      0 < ({ host := "blog.foo.bar", pageviews := 1 } : RefStat).pageviews) :=
  ⟨by decide, (C8_referrers [W8e] [] none W8now).1 W8report (by decide), by decide,
   (C8_referrers [W8e] [] none W8now).2.1 { host := "blog.foo.bar", pageviews := 1 }
     (by decide)⟩

/-- C9: `generateDefaultStats` is the `Promise.all` of its six
sub-computations: it returns the composite report exactly when all six
succeed (with exactly their six results), and when any sub-computation
fails the whole invocation fails, the error being one of the
sub-computations' errors. -/
theorem C9_noPartialReport (db : List Event) (q : Option StatsQuery) (now : DateTime)
    (uu ua us : Except String Nat) (rf : Except String (List RefStat))
    (pg : Except String (List PageStat)) (pv : Except String (List DayBucket)) :
    generateDefaultStats db q now =
      assembleStats (uniqueUsersOf db (scopeLower q now) (scopeUpper now))
        (uniqueAccountsOf db (scopeLower q now) (scopeUpper now))
        (uniqueSessionsOf db (scopeLower q now) (scopeUpper now))
        (referrersPromise db)
        (pagesOf db (scopeLower q now) (scopeUpper now))
        (pageviewsPromise db now (effectiveNumDays q)) ∧
    (∀ r, assembleStats uu ua us rf pg pv = Except.ok r ↔
      uu = Except.ok r.uniqueUsers ∧ ua = Except.ok r.uniqueAccounts ∧
      us = Except.ok r.uniqueSessions ∧ rf = Except.ok r.referrers ∧
      pg = Except.ok r.pages ∧ pv = Except.ok r.pageviews) ∧
    (∀ e, assembleStats uu ua us rf pg pv = Except.error e →
      uu = Except.error e ∨ ua = Except.error e ∨ us = Except.error e ∨
      rf = Except.error e ∨ pg = Except.error e ∨ pv = Except.error e) ∧
    (((∃ e, uu = Except.error e) ∨ (∃ e, ua = Except.error e) ∨
      (∃ e, us = Except.error e) ∨ (∃ e, rf = Except.error e) ∨
      (∃ e, pg = Except.error e) ∨ (∃ e, pv = Except.error e)) →
      ∃ e, assembleStats uu ua us rf pg pv = Except.error e) := by
  have hiff : ∀ r : StatsReport, assembleStats uu ua us rf pg pv = Except.ok r ↔
      uu = Except.ok r.uniqueUsers ∧ ua = Except.ok r.uniqueAccounts ∧
      us = Except.ok r.uniqueSessions ∧ rf = Except.ok r.referrers ∧
      pg = Except.ok r.pages ∧ pv = Except.ok r.pageviews := by
    intro r
    obtain ⟨ru, ra, rs, rr, rp, rv⟩ := r
    cases uu <;> cases ua <;> cases us <;> cases rf <;> cases pg <;> cases pv <;>
      simp [assembleStats]
  refine ⟨rfl, hiff, ?_, ?_⟩
  · intro e he
    cases uu <;> cases ua <;> cases us <;> cases rf <;> cases pg <;> cases pv <;>
      simp_all [assembleStats]
  · intro hdis
    cases hres : assembleStats uu ua us rf pg pv with
    | error e => exact ⟨e, rfl⟩
    | ok r =>
      obtain ⟨h1, h2, h3, h4, h5, h6⟩ := (hiff r).mp hres
      rcases hdis with ⟨e, he⟩ | ⟨e, he⟩ | ⟨e, he⟩ | ⟨e, he⟩ | ⟨e, he⟩ | ⟨e, he⟩ <;>
        simp_all

theorem C9_witness :
    (∃ e, assembleStats (Except.error "storage failure") (Except.ok 0) (Except.ok 0)
      (Except.ok []) (Except.ok []) (Except.ok []) = Except.error e) ∧
    assembleStats (Except.error "storage failure") (Except.ok 0) (Except.ok 0)
      (Except.ok []) (Except.ok []) (Except.ok []) = Except.error "storage failure" :=
  ⟨(C9_noPartialReport [] none
      { year := 2026, month := 9, day := 20, hour := 0, minute := 0, second := 0, ms := 0 }
      (Except.error "storage failure") (Except.ok 0) (Except.ok 0)
      (Except.ok []) (Except.ok []) (Except.ok [])).2.2.2
      (Or.inl ⟨"storage failure", rfl⟩),
   by decide⟩

/-- C10: a missing query, a missing `numDays`, or `numDays = 0` all make
`generateDefaultStats` silently use the default of 7 days; the effective
day count is never 0, so no zero-day reporting window can be requested. -/
theorem C10_numDaysDefault (db : List Event) (now : DateTime) (n : Nat)
    (q : Option StatsQuery) :
    effectiveNumDays none = 7 ∧
    effectiveNumDays (some { numDays := none }) = 7 ∧
    effectiveNumDays (some { numDays := some 0 }) = 7 ∧
    effectiveNumDays (some { numDays := some (n + 1) }) = n + 1 ∧
    0 < effectiveNumDays q ∧
    generateDefaultStats db (some { numDays := some 0 }) now =
      generateDefaultStats db none now ∧
    generateDefaultStats db (some { numDays := none }) now =
      generateDefaultStats db none now := by
  refine ⟨rfl, rfl, rfl, ?_, ?_, rfl, rfl⟩
  · simp [effectiveNumDays]
  · rcases q with _ | ⟨_ | m⟩
    · decide
    · decide
    · rcases m with _ | m
      · decide
      · simp [effectiveNumDays]

-- Model validation of spec scenario 6: a table whose only event lies 10
-- days in the past yields, for the default 7-day window, the all-zero
-- report with 7 zero-count day buckets.

example :
    generateDefaultStats
      [{ timestamp := "2026-09-10T12:00:00.000Z", userId := some "u1",
         accountId := some "a1", sessionId := some "s1",
         href := { host := "www.offen.dev", href := "https://www.offen.dev/",
                   origin := "https://www.offen.dev", pathname := "/" },
         referrer := none }] none
      { year := 2026, month := 9, day := 20, hour := 10, minute := 0, second := 0,
        ms := 0 } =
    Except.ok
      { uniqueUsers := 0, uniqueAccounts := 0, uniqueSessions := 0, referrers := [],
        pages := [],
        pageviews :=
          [{ date := "14.09.2026", value := 0 }, { date := "15.09.2026", value := 0 },
           { date := "16.09.2026", value := 0 }, { date := "17.09.2026", value := 0 },
           { date := "18.09.2026", value := 0 }, { date := "19.09.2026", value := 0 },
           { date := "20.09.2026", value := 0 }] } := by decide
